import Mathlib

/-!
Verification development for the pos-admin repository: a shallow embedding of
the offline-first order-sync logic (local IndexedDB order store, sync
orchestrator, server locator, retry helpers) together with theorems settling
the specification claims.

Conventions of the embedding:
* JavaScript values that can be `undefined` are modelled as `Option`.
* JavaScript strict equality (`===`) between heterogeneous identifier values is
  modelled by dedicated comparison functions (`jsEqOStr`, `jsEqONat`).
* The IndexedDB object store `orders` (`keyPath: 'id'`, `autoIncrement: true`)
  is modelled as a key-ordered association list plus the key generator counter;
  `clear` does not reset the generator, matching IndexedDB semantics.
* Asynchronous server calls are modelled as oracle functions returning
  `Except`, where `Except.error` models a thrown/rejected promise.
* Numeric delays in the retry helpers are modelled over `ℚ`.
-/

namespace PosAdmin

/-- An ambiguous order identifier as passed around in the JS code: either a
numeric local key or a string (server `_id` or human order number). -/
inductive Ident where
  | num (n : Nat)
  | str (s : String)
deriving DecidableEq, Repr

/-- An order record as held in the `orders` object store / returned by the
server.  `id` is the locally assigned numeric key (`keyPath 'id'`), `_id` the
optional server identifier, `orderId` the human-facing order number. -/
structure Order where
  id : Option Nat
  _id : Option String
  orderId : Option String
  status : String
  timestamp : Int
  synced : Bool
  dirty : Bool
deriving DecidableEq, Repr

/-- JS strict equality between an optional string field and an optional
identifier value (`undefined === undefined` is `true`). -/
def jsEqOStr : Option String → Option Ident → Bool
  | some s, some (Ident.str t) => s == t
  | none, none => true
  | _, _ => false

/-- JS strict equality between an optional numeric field and an optional
identifier value. -/
def jsEqONat : Option Nat → Option Ident → Bool
  | some n, some (Ident.num m) => n == m
  | none, none => true
  | _, _ => false

/-- `String(x)` for an optional numeric field (`String(undefined)` is
`"undefined"`). -/
def jsStringONat : Option Nat → String
  | some n => toString n
  | none => "undefined"

/-- `String(x)` for an identifier value. -/
def jsStringIdent : Ident → String
  | Ident.num n => toString n
  | Ident.str s => s

/-- JS truthiness filter for an optional string (empty string is falsy). -/
def jsTruthyStr : Option String → Option String
  | some s => if s = "" then none else some s
  | none => none

/-- JS truthiness filter for an optional number (`0` is falsy). -/
def jsTruthyNat : Option Nat → Option Nat
  | some n => if n = 0 then none else some n
  | none => none

/-- `o.id || o._id || o.orderId` as an identifier value. -/
def firstIdSidOrderId (o : Order) : Option Ident :=
  match jsTruthyNat o.id with
  | some n => some (Ident.num n)
  | none =>
    match jsTruthyStr o._id with
    | some s => some (Ident.str s)
    | none => (jsTruthyStr o.orderId).map Ident.str

/-- `o.orderId || o._id || o.id` as an identifier value (argument order used
by the bulk-sync echo loop). -/
def firstOrderIdSidId (o : Order) : Option Ident :=
  match jsTruthyStr o.orderId with
  | some s => some (Ident.str s)
  | none =>
    match jsTruthyStr o._id with
    | some s => some (Ident.str s)
    | none => (jsTruthyNat o.id).map Ident.num

/-- The `orders` object store: records kept in ascending key order (as
`getAll` returns them), plus the auto-increment key generator state. -/
structure Store where
  recs : List Order
  gen : Nat
deriving DecidableEq, Repr

/-- `db.get('orders', k)` for a numeric key. -/
def storeGet (s : Store) (k : Nat) : Option Order :=
  s.recs.find? (fun o => o.id == some k)

/-- Insert a record (whose key is `k`) into a key-ordered record list,
replacing any existing record with the same key. -/
def insertByKey (o : Order) (k : Nat) : List Order → List Order
  | [] => [o]
  | x :: xs =>
    if x.id.getD 0 < k then x :: insertByKey o k xs
    else if x.id.getD 0 = k then o :: xs
    else o :: x :: xs

/-- `db.put('orders', o)`: insert-or-replace.  A record without an `id` gets
the next generator key injected (IndexedDB key-path key generator); an
explicit numeric key bumps the generator past it.  Returns the store and the
record as stored. -/
def storePut (s : Store) (o : Order) : Store × Order :=
  match o.id with
  | some k => (⟨insertByKey o k s.recs, max s.gen (k + 1)⟩, o)
  | none =>
    let o' : Order := { o with id := some s.gen }
    (⟨insertByKey o' s.gen s.recs, s.gen + 1⟩, o')

/-- `tx.store.add(order)`: like `put` but fails (rejects, aborting the
transaction) when the key already exists. -/
def storeAdd (s : Store) (o : Order) : Option Store :=
  match o.id with
  | some k =>
    if s.recs.any (fun x => x.id == some k) then none
    else some ⟨insertByKey o k s.recs, max s.gen (k + 1)⟩
  | none =>
    let o' : Order := { o with id := some s.gen }
    some ⟨insertByKey o' s.gen s.recs, s.gen + 1⟩

/-- `db.delete('orders', k)`. -/
def storeDelete (s : Store) (k : Nat) : Store :=
  ⟨s.recs.filter (fun o => !(o.id == some k)), s.gen⟩

/-- `store.clear()`: removes every record; the key generator is *not* reset
(IndexedDB semantics). -/
def storeClear (s : Store) : Store :=
  ⟨[], s.gen⟩

/-- Add a whole list of records inside one transaction; any failing `add`
aborts (rolls back) the transaction, modelled by returning `none`. -/
def addAll (s : Store) : List Order → Option Store
  | [] => some s
  | o :: os =>
    match storeAdd s o with
    | some s' => addAll s' os
    | none => none

/-- The fallback-scan predicate of `updateOrderStatus` and `deleteOrder`:
`o._id === orderId || o.orderId === orderId ||
String(o.id) === String(orderId)`. -/
def lookupScanPred (i : Ident) (o : Order) : Bool :=
  jsEqOStr o._id (some i) || jsEqOStr o.orderId (some i) ||
    (jsStringONat o.id == jsStringIdent i)

/-- The scan predicate of `markOrderAsSynced`:
`o.id === orderId || o.orderId === orderId || o._id === orderId`. -/
def markScanPred (oid : Option Ident) (o : Order) : Bool :=
  jsEqONat o.id oid || jsEqOStr o.orderId oid || jsEqOStr o._id oid

/-- The lookup predicate of the dashboard's `handleDeleteOrder`:
`o._id === orderKey || String(o.id) === String(orderKey) ||
o.orderId === orderKey`. -/
def dashDeletePred (i : Ident) (o : Order) : Bool :=
  jsEqOStr o._id (some i) || (jsStringONat o.id == jsStringIdent i) ||
    jsEqOStr o.orderId (some i)

/-- The comparator `(a, b) => b.timestamp - a.timestamp`: descending
timestamp order. -/
def TsLE (a b : Order) : Prop := b.timestamp ≤ a.timestamp

instance : DecidableRel TsLE := fun a b => inferInstanceAs (Decidable (b.timestamp ≤ a.timestamp))

instance : IsTotal Order TsLE := ⟨fun a b => le_total b.timestamp a.timestamp⟩

instance : IsTrans Order TsLE := ⟨fun _ _ _ h1 h2 => le_trans h2 h1⟩

/-- `orders.sort((a, b) => b.timestamp - a.timestamp)`: a stable sort by
descending timestamp (JS `Array.prototype.sort` is stable). -/
def sortTsDesc (l : List Order) : List Order :=
  List.insertionSort TsLE l

/-!  Local order store operations (src/unnamed/part_000, `db` service).  -/

/-- `getAllOrders()`: when online, fetch from the server (oracle
`fetchResult`); on success clear the cache and `add` every fetched record in
one transaction (an `add` failure aborts and rolls the transaction back) and
return the fetched list sorted by descending timestamp.  On fetch failure, or
offline, return the cached records sorted descending without mutating the
store. -/
def getAllOrders (online : Bool) (fetchResult : Except String (List Order))
    (s : Store) : List Order × Store :=
  if online then
    match fetchResult with
    | Except.ok orders =>
      match addAll (storeClear s) orders with
      | some s' => (sortTsDesc orders, s')
      | none => (sortTsDesc s.recs, s)
    | Except.error _ => (sortTsDesc s.recs, s)
  else (sortTsDesc s.recs, s)

/-- The ambiguous-identifier lookup shared by `updateOrderStatus` and
`deleteOrder`: a primary-key `db.get` first (a string identifier is a valid
IndexedDB key but never matches the numeric keys of this store), then a scan
with `lookupScanPred`. -/
def lookupOrder (s : Store) (i : Ident) : Option Order :=
  let fromGet : Option Order :=
    match i with
    | Ident.num n => storeGet s n
    | Ident.str _ => none
  match fromGet with
  | some o => some o
  | none => s.recs.find? (lookupScanPred i)

/-- `updateOrderStatus(orderId, status)`: primary-key lookup first, then a
scan matching `o._id === orderId || o.orderId === orderId ||
String(o.id) === String(orderId)`; throws `'Order not found'` when neither
finds a record; otherwise sets the new status, marks the record dirty and
`put`s it back.  A call with an `undefined` key throws (`db.get` DataError). -/
def updateOrderStatus (s : Store) (orderId : Option Ident) (status : String) :
    Except String (Store × Order) :=
  match orderId with
  | none => Except.error "DataError"
  | some i =>
    match lookupOrder s i with
    | none => Except.error "Order not found"
    | some o =>
      let o' : Order := { o with status := status, dirty := true }
      Except.ok ((storePut s o').1, o')

/-- `saveOrder(order)`: plain `put` (insert or update, preserving a given
key). -/
def saveOrder (s : Store) (o : Order) : Store × Order :=
  storePut s o

/-- `deleteOrder(orderId)`: primary-key lookup first, then the same
three-field scan as `updateOrderStatus`; deletes the found record by its
local key, returning it, or returns `none` when nothing matched. -/
def deleteOrder (s : Store) (orderId : Option Ident) :
    Except String (Store × Option Order) :=
  match orderId with
  | none => Except.error "DataError"
  | some i =>
    match lookupOrder s i with
    | some e => Except.ok (storeDelete s (e.id.getD 0), some e)
    | none => Except.ok (s, none)

/-- `getUnsyncedOrders()`: all records with falsy `synced`. -/
def getUnsyncedOrders (s : Store) : List Order :=
  s.recs.filter (fun o => !o.synced)

/-- `markOrderAsSynced(orderId)`: scans all records for
`o.id === orderId || o.orderId === orderId || o._id === orderId` (no
primary-key step, no `String` coercion) and sets `synced = true` on the first
match. -/
def markOrderAsSynced (s : Store) (orderId : Option Ident) :
    Store × Option Order :=
  match s.recs.find? (markScanPred orderId) with
  | some o =>
    let o' : Order := { o with synced := true }
    ((storePut s o').1, some o')
  | none => (s, none)

/-- The server API oracles used by the sync path.  `Except.error` models a
rejected promise; `syncOrders` returns the acknowledged order list already
extracted from the response body. -/
structure SyncApi where
  syncOrders : List Order → Except String (List Order)
  fetchOrderByNumber : String → Except String (Option Order)
  updateOrderStatus : String → String → Except String Unit

/-- Server-identifier resolution for a dirty record: prefer the cached
(truthy) `_id`; else, when the order number is truthy, look the order up by
number and take its (truthy) `_id`; `Except.error` models the lookup
throwing. -/
def resolveServerId (api : SyncApi) (d : Order) : Except String (Option String) :=
  match jsTruthyStr d._id with
  | some sid => Except.ok (some sid)
  | none =>
    match jsTruthyStr d.orderId with
    | some onum =>
      (api.fetchOrderByNumber onum).map (fun so => jsTruthyStr (so.bind (fun x => x._id)))
    | none => Except.ok none

/-- One iteration of the dirty-push loop: resolve the server id and push the
status; on success clear `dirty` and `put` the record back; any failure
(resolution throw, unresolved id, push throw) leaves the store unchanged and
is skipped. -/
def pushDirtyStep (api : SyncApi) (s : Store) (d : Order) : Store :=
  match resolveServerId api d with
  | Except.error _ => s
  | Except.ok none => s
  | Except.ok (some sid) =>
    match api.updateOrderStatus sid d.status with
    | Except.error _ => s
    | Except.ok _ => (storePut s { d with dirty := false }).1

/-- Fold of `pushDirtyStep` over the snapshot of dirty records. -/
def pushDirtyList (api : SyncApi) (s : Store) : List Order → Store
  | [] => s
  | d :: ds => pushDirtyList api (pushDirtyStep api s d) ds

/-- The dirty-push phase of `syncPendingOrders`: snapshot the dirty records
and push each one. -/
def pushDirty (api : SyncApi) (s : Store) : Store :=
  pushDirtyList api s (s.recs.filter (fun o => o.dirty))

/-- Processing of the bulk-sync echo: for each acknowledged record, mark the
matching local record synced (`o.orderId || o._id || o.id`) and then save the
server's representation. -/
def processEcho (s : Store) : List Order → Store
  | [] => s
  | o :: os =>
    let s1 := (markOrderAsSynced s (firstOrderIdSidId o)).1
    let s2 := (saveOrder s1 o).1
    processEcho s2 os

/-- Result object of `syncPendingOrders`. -/
inductive SyncResult where
  | offline
  | okSynced (n : Nat)
  | failed (e : String)
deriving DecidableEq, Repr

/-- `syncPendingOrders()`: offline → skip; no unsynced records → report zero
synced (returning *before* the dirty-push phase); otherwise bulk-sync the
unsynced records, process the echo, and then push status updates for dirty
records.  A bulk-sync throw aborts everything. -/
def syncPendingOrders (online : Bool) (api : SyncApi) (s : Store) :
    Store × SyncResult :=
  if online then
    let pending := getUnsyncedOrders s
    if pending.length = 0 then (s, SyncResult.okSynced 0)
    else
      match api.syncOrders pending with
      | Except.error e => (s, SyncResult.failed e)
      | Except.ok syncedOrders =>
        let s1 := processEcho s syncedOrders
        let s2 := pushDirty api s1
        (s2, SyncResult.okSynced syncedOrders.length)
  else (s, SyncResult.offline)

/-- `syncWithServer()`: offline → failure; otherwise delegate to
`getAllOrders` (which already refreshes the cache) and report success. -/
def syncWithServer (online : Bool) (fetchResult : Except String (List Order))
    (s : Store) : Store × Bool :=
  if online then ((getAllOrders online fetchResult s).2, true)
  else (s, false)

/-!  Admin dashboard delete handler
(src/pos-admin/src/components/AdminDashboard.jsx).  -/

/-- Outcome of `handleDeleteOrder`. -/
inductive DelOutcome where
  | offlineRefused
  | cancelled
  | failed
  | completed
deriving DecidableEq, Repr

/-- `handleDeleteOrder(orderKey)`: refuse outright while offline; otherwise
(after the confirm dialog) find the order in the React state list by
`o._id === orderKey || String(o.id) === String(orderKey) ||
o.orderId === orderKey`, delete it locally first, then best-effort delete it
on the server (resolving `_id` directly or via order-number lookup) followed
by a full re-sync; server failures are logged and swallowed.  `loadData()`
re-pulls at the end.  The same fetch oracle is used for every pull within the
run (the server is assumed stable across one handler invocation). -/
def handleDeleteOrder (online confirmOk : Bool) (ordersState : List Order)
    (orderKey : Ident) (fetchByNumber : String → Except String (Option Order))
    (apiDelete : String → Except String Unit)
    (fetchResult : Except String (List Order)) (s : Store) :
    Store × DelOutcome :=
  if online = false then (s, DelOutcome.offlineRefused)
  else if confirmOk = false then (s, DelOutcome.cancelled)
  else
    let localRec : Option Order := ordersState.find? (dashDeletePred orderKey)
    let delArg : Option Ident :=
      match localRec with
      | some l => firstIdSidOrderId l
      | none => some orderKey
    match deleteOrder s delArg with
    | Except.error _ => (s, DelOutcome.failed)
    | Except.ok (s1, _) =>
      let s2 : Store :=
        match localRec with
        | none => s1
        | some l =>
          let resolved : Except String (Option String) :=
            match jsTruthyStr l._id with
            | some sid => Except.ok (some sid)
            | none =>
              match jsTruthyStr l.orderId with
              | some onum =>
                (fetchByNumber onum).map
                  (fun so => jsTruthyStr (so.bind (fun x => x._id)))
              | none => Except.ok none
          match resolved with
          | Except.error _ => s1
          | Except.ok none => s1
          | Except.ok (some sid) =>
            match apiDelete sid with
            | Except.error _ => s1
            | Except.ok _ => (syncWithServer online fetchResult s1).1
      ((getAllOrders online fetchResult s2).2, DelOutcome.completed)

/-!  Admin server locator (src/src/components/productManager.jsx, network
utility section).  -/

/-- The `SERVER_URLS` configuration (the `localNetworks` list is never read
by `getServerUrl` and is omitted). -/
structure ServerUrls where
  cloud : String
  localNet : String
  localhost : String
deriving DecidableEq, Repr

/-- Internal `cachedMode` values. -/
inductive AdminMode where
  | localhost
  | localNet
  | cloud
deriving DecidableEq, Repr

/-- `SERVER_URLS[mode]`. -/
def adminModeUrl (u : ServerUrls) : AdminMode → String
  | AdminMode.localhost => u.localhost
  | AdminMode.localNet => u.localNet
  | AdminMode.cloud => u.cloud

/-- The `mode` string returned for a cached mode:
`cachedMode === 'cloud' ? 'online' : cachedMode`. -/
def adminModeName : AdminMode → String
  | AdminMode.localhost => "localhost"
  | AdminMode.localNet => "local"
  | AdminMode.cloud => "online"

/-- `getServerUrl()`: use the fresh cache when present; otherwise probe
localhost first, then the LAN URL (only when distinct from localhost), then
the cloud URL (only when the browser is online and the URL is distinct from
localhost); tag the winner with its mode and cache it.  When every probe
fails, fall back to the localhost URL with mode `'localhost'` (and cache
`localhost`).  `health` is the probe oracle; returns the `{url, mode}` pair
and the new `cachedMode`. -/
def getServerUrl (u : ServerUrls) (health : String → Bool) (online : Bool)
    (cachedMode : Option AdminMode) (cacheFresh : Bool) :
    (String × String) × Option AdminMode :=
  match cachedMode, cacheFresh with
  | some m, true => ((adminModeUrl u m, adminModeName m), some m)
  | _, _ =>
    if health u.localhost then
      ((u.localhost, "localhost"), some AdminMode.localhost)
    else if u.localNet ≠ u.localhost ∧ health u.localNet then
      ((u.localNet, "local"), some AdminMode.localNet)
    else if online ∧ u.cloud ≠ u.localhost ∧ health u.cloud then
      ((u.cloud, "online"), some AdminMode.cloud)
    else
      ((u.localhost, "localhost"), some AdminMode.localhost)

/-!  NetworkContext server locator (src/src/context/NetworkContext.jsx,
`detectServerUrl`).  -/

/-- Substring containment, modelling `String.prototype.includes`. -/
def strContains (s pat : String) : Bool :=
  decide (List.IsInfix pat.toList s.toList)

/-- Mode classification of a reachable URL. -/
def detectMode (url : String) : String :=
  if strContains url "192.168" || strContains url "10.0" then "local"
  else if strContains url "cloud" || strContains url "herokuapp" ||
      strContains url "vercel" then "online"
  else "localhost"

/-- The candidate list: the optional configured backend URL followed by the
fixed LAN/localhost candidates, with falsy entries filtered out. -/
def candidateUrls (backendUrl : Option String) : List String :=
  ((match backendUrl with
    | some s => [s]
    | none => []) ++
   ["http://192.168.137.1:3001", "http://192.168.1.1:3001",
    "http://192.168.0.1:3001", "http://localhost:3001",
    "http://127.0.0.1:3001", "http://localhost:5000",
    "http://127.0.0.1:5000"]).filter (fun s => s ≠ "")

/-- `detectServerUrl()`: probe the candidates in priority order and return
the first reachable one with its classified mode; when every probe fails,
fall back to `{url: 'http://localhost:3001', mode: 'disconnected'}`. -/
def detectServerUrl (backendUrl : Option String) (health : String → Bool) :
    String × String :=
  match (candidateUrls backendUrl).find? health with
  | some url => (url, detectMode url)
  | none => ("http://localhost:3001", "disconnected")

/-!  Retry helpers (src/unnamed/part_002, retry service).  -/

/-- `min(baseDelay * backoffMultiplier^(attempt-1), maxDelay)`. -/
def ebDelay (base maxD mult : ℚ) (attempt : Nat) : ℚ :=
  min (base * mult ^ (attempt - 1)) maxD

/-- The delay actually slept after a failed attempt:
`delay + delay * Math.random() * 0.1` with the draw for that attempt given by
the `rand` oracle. -/
def ebActualDelay (base maxD mult : ℚ) (rand : Nat → ℚ) (attempt : Nat) : ℚ :=
  ebDelay base maxD mult attempt + ebDelay base maxD mult attempt * rand attempt * (1 / 10)

/-- `const shouldRetryThis = !shouldRetry || shouldRetry(err, attempt)`. -/
def ebRetryOk {E : Type} (should : Option (E → Nat → Bool)) (e : E)
    (attempt : Nat) : Bool :=
  match should with
  | none => true
  | some p => p e attempt

/-- The retry loop of `exponentialBackoff`, with explicit fuel
(`fuel = maxAttempts + 1 - attempt` at every call).  Returns the final result
(`Except.error none` models `throw null`, reachable only when the loop body
never runs), the number of invocations of `fn`, and the list of slept delays
in order. -/
def ebAux {E A : Type} (maxA : Nat) (base maxD mult : ℚ)
    (should : Option (E → Nat → Bool)) (fn : Nat → Except E A) (rand : Nat → ℚ) :
    Nat → Nat → Nat → Option E → List ℚ → Except (Option E) A × Nat × List ℚ
  | 0, _, calls, lastErr, delays => (Except.error lastErr, calls, delays)
  | fuel + 1, attempt, calls, _lastErr, delays =>
    match fn attempt with
    | Except.ok a => (Except.ok a, calls + 1, delays)
    | Except.error e =>
      if attempt == maxA || !(ebRetryOk should e attempt) then
        (Except.error (some e), calls + 1, delays)
      else
        ebAux maxA base maxD mult should fn rand fuel (attempt + 1) (calls + 1)
          (some e) (delays ++ [ebActualDelay base maxD mult rand attempt])

/-- `exponentialBackoff(fn, options)`: attempts numbered from 1; the `fn`
oracle gives the outcome of each attempt and `rand` the jitter draw used
after it. -/
def exponentialBackoff {E A : Type} (maxA : Nat) (base maxD mult : ℚ)
    (should : Option (E → Nat → Bool)) (fn : Nat → Except E A)
    (rand : Nat → ℚ) : Except (Option E) A × Nat × List ℚ :=
  ebAux maxA base maxD mult should fn rand maxA 1 0 none []

/-- The loop of `simpleRetry`: `i` counts completed iterations (and doubles
as the number of invocations of `fn`). -/
def simpleRetryGo {E A : Type} (fn : Nat → Except E A) :
    Nat → Nat → Option E → Except (Option E) A × Nat
  | 0, i, lastErr => (Except.error lastErr, i)
  | fuel + 1, i, _lastErr =>
    match fn i with
    | Except.ok a => (Except.ok a, i + 1)
    | Except.error e => simpleRetryGo fn fuel (i + 1) (some e)

/-- `simpleRetry(fn, attempts, delayMs)`: runs the loop body
`max(attempts, 0)` times (a non-positive `attempts` skips the loop entirely)
and otherwise re-throws the last error; with no iterations the initial
`null` last-error value is thrown (`Except.error none`). -/
def simpleRetry {E A : Type} (fn : Nat → Except E A) (attempts : Int) :
    Except (Option E) A × Nat :=
  simpleRetryGo fn attempts.toNat 0 none

/-!  Auxiliary definitions used by the claim analyses.  -/

/-- Stopping predicate of an exponential-backoff run whose attempts all fail
with errors `e`: whether the retry predicate (when supplied) accepts the
error of attempt `m`. -/
def retryOkAt {E : Type} (should : Option (E → Nat → Bool)) (e : Nat → E)
    (m : Nat) : Bool :=
  ebRetryOk should (e m) m

/-- Key-generator value after adding `os` starting from generator `g`. -/
def genAfter (g : Nat) (os : List Order) : Nat :=
  os.foldl (fun a o => max a (o.id.getD 0 + 1)) g

/-- Generator-free core of `addAll` starting from record list `recs`, defined
for batches in which every record carries an explicit key (the `none` branch
is unreachable under that hypothesis). -/
def addAllRecs (recs : List Order) : List Order → Option (List Order)
  | [] => some recs
  | o :: os =>
    match o.id with
    | some k =>
      if recs.any (fun x => x.id == some k) then none
      else addAllRecs (insertByKey o k recs) os
    | none => none

/-!  Concrete inputs used by counterexamples and witnesses.  -/

/-- C1: a server configuration whose probes all fail. -/
def c1Urls : ServerUrls :=
  ⟨"http://cloud.example.com", "http://192.168.1.1:3001", "http://localhost:3001"⟩

/-- C2 counterexample: a record that is `synced` (so not pending) but
`dirty`. -/
def c2Order : Order := ⟨some 1, some "s1", some "K1", "ready", 0, true, true⟩

/-- C2 counterexample store. -/
def c2Store : Store := ⟨[c2Order], 2⟩

/-- C2: a server API where every call succeeds (bulk sync acknowledges
nothing, status pushes succeed). -/
def c2Api : SyncApi :=
  ⟨fun _ => Except.ok [], fun _ => Except.ok none, fun _ _ => Except.ok ()⟩

/-- C2 witness: an unsynced, clean record. -/
def c2wPending : Order := ⟨some 1, none, some "P1", "pending", 10, false, false⟩

/-- C2 witness: a synced, dirty record with a cached server id. -/
def c2wDirty : Order := ⟨some 2, some "s2", some "K2", "ready", 5, true, true⟩

/-- C2 witness store containing one pending and one dirty record. -/
def c2wStore : Store := ⟨[c2wPending, c2wDirty], 3⟩

/-- C3: a record matching the probe identifier `"K"` only by order number,
sitting at an earlier store position. -/
def c3r1 : Order := ⟨some 1, some "X1", some "K", "pending", 0, false, false⟩

/-- C3: a record matching the probe identifier `"K"` by server identifier,
sitting at a later store position. -/
def c3r2 : Order := ⟨some 2, some "K", some "N2", "pending", 0, false, false⟩

/-- C3 store with both records. -/
def c3Store : Store := ⟨[c3r1, c3r2], 3⟩

/-- C4 counterexample: a remote order list whose record lacks a local key. -/
def c4Remote : List Order := [⟨none, some "s1", some "K", "pending", 5, true, false⟩]

/-- C4: the store-updating effect of one pull of `c4Remote`. -/
def c4Pull (st : Store) : Store := (getAllOrders true (Except.ok c4Remote) st).2

/-- C4 witness: a remote list whose record carries an explicit local key. -/
def c4wRemote : List Order := [⟨some 7, some "s1", some "K", "pending", 5, true, false⟩]

/-- C5 witness: an unsynced, clean record. -/
def c5wPending : Order := ⟨some 1, none, some "Q1", "pending", 10, false, false⟩

/-- C5 witness: a synced, dirty record with a cached server id. -/
def c5wDirty : Order := ⟨some 2, some "t2", some "Q2", "ready", 5, true, true⟩

/-- C5 witness store. -/
def c5wStore : Store := ⟨[c5wPending, c5wDirty], 3⟩

/-- C5/C2 witness API: bulk sync acknowledges nothing, pushes succeed. -/
def c5Api : SyncApi :=
  ⟨fun _ => Except.ok [], fun _ => Except.ok none, fun _ _ => Except.ok ()⟩

/-- C8/C9 witness: an operation failing on every attempt. -/
def c8Fn : Nat → Except String Unit := fun _ => Except.error "boom"

/-- C9 witness: errors labelled by attempt number. -/
def c9Fn : Nat → Except String Unit := fun k => Except.error (toString k)

/-- C9 witness: error labels. -/
def c9Err : Nat → String := fun k => toString k

/-- C9 witness: a predicate accepting only the first attempt's error. -/
def c9Should : Option (String → Nat → Bool) := some (fun _ attempt => attempt < 2)

/-!  Helper lemmas.  -/

/-- `find?` by key finds a freshly inserted record. -/
theorem find_insertByKey_self (o : Order) (k : Nat) (ho : o.id = some k) :
    ∀ recs : List Order,
      (insertByKey o k recs).find? (fun x => x.id == some k) = some o := by
  intro recs
  induction recs with
  | nil => simp [insertByKey, List.find?, ho]
  | cons x xs ih =>
    by_cases h1 : x.id.getD 0 < k
    · have hx : (x.id == some k) = false := by
        cases hxid : x.id with
        | none => simp
        | some j =>
          rw [hxid] at h1
          simp only [Option.getD] at h1
          simp [Nat.ne_of_lt h1]
      rw [insertByKey, if_pos h1, List.find?_cons, hx, ih]
    · by_cases h2 : x.id.getD 0 = k
      · rw [insertByKey, if_neg h1, if_pos h2, List.find?_cons]
        simp [ho]
      · rw [insertByKey, if_neg h1, if_neg h2, List.find?_cons]
        simp [ho]

/-- `find?` by a different key is untouched by an insertion. -/
theorem find_insertByKey_ne (o : Order) (k k' : Nat) (ho : o.id = some k)
    (hkk : k' ≠ k) :
    ∀ recs : List Order,
      (insertByKey o k recs).find? (fun x => x.id == some k') =
        recs.find? (fun x => x.id == some k') := by
  have hos : (o.id == some k') = false := by
    simp [ho]
    omega
  intro recs
  induction recs with
  | nil => simp [insertByKey, List.find?, hos]
  | cons x xs ih =>
    by_cases h1 : x.id.getD 0 < k
    · rw [insertByKey, if_pos h1, List.find?_cons, List.find?_cons]
      cases hpx : (x.id == some k') with
      | true => rfl
      | false => exact ih
    · by_cases h2 : x.id.getD 0 = k
      · have hx : (x.id == some k') = false := by
          cases hxid : x.id with
          | none => simp
          | some j =>
            rw [hxid] at h2
            simp only [Option.getD] at h2
            subst h2
            simp
            omega
        rw [insertByKey, if_neg h1, if_pos h2, List.find?_cons, hos,
          List.find?_cons, hx]
      · rw [insertByKey, if_neg h1, if_neg h2, List.find?_cons, hos]

/-- Reading back a record just `put` under its own key. -/
theorem storeGet_put_self (s : Store) (o : Order) (k : Nat) (ho : o.id = some k) :
    storeGet (storePut s o).1 k = some o := by
  rw [storePut, ho]
  exact find_insertByKey_self o k ho s.recs

/-- A `put` under one key does not change reads under another key. -/
theorem storeGet_put_ne (s : Store) (o : Order) (k k' : Nat) (ho : o.id = some k)
    (hkk : k' ≠ k) :
    storeGet (storePut s o).1 k' = storeGet s k' := by
  rw [storePut, ho]
  exact find_insertByKey_ne o k k' ho hkk s.recs

/-- `find?` returns the entry at index `i` when it satisfies the predicate
and no earlier entry does. -/
theorem find_first_of_pred (p : Order → Bool) :
    ∀ (l : List Order) (i : Nat) (hi : i < l.length),
      p (l.get ⟨i, hi⟩) = true →
      (∀ j (hj : j < i), p (l.get ⟨j, Nat.lt_trans hj hi⟩) = false) →
      l.find? p = some (l.get ⟨i, hi⟩) := by
  intro l
  induction l with
  | nil => intro i hi; exact absurd hi (by simp)
  | cons x xs ih =>
    intro i hi hp hbefore
    cases i with
    | zero =>
      rw [List.find?_cons]
      simp only [List.get] at hp ⊢
      rw [hp]
    | succ i' =>
      have h0 : p x = false := by
        have := hbefore 0 (Nat.succ_pos i')
        simpa using this
      have hi' : i' < xs.length := by simpa using hi
      have hp' : p (xs.get ⟨i', hi'⟩) = true := by simpa using hp
      have hb' : ∀ j (hj : j < i'), p (xs.get ⟨j, Nat.lt_trans hj hi'⟩) = false := by
        intro j hj
        have := hbefore (j + 1) (Nat.succ_lt_succ hj)
        simpa using this
      rw [List.find?_cons, h0]
      exact ih i' hi' hp' hb'

/-- When the primary-key `db.get` misses (including every string
identifier), `lookupOrder` is exactly the fallback scan. -/
theorem lookupOrder_miss (s : Store) (i : Ident)
    (hmiss : ∀ k, i = Ident.num k → storeGet s k = none) :
    lookupOrder s i = s.recs.find? (lookupScanPred i) := by
  cases i with
  | num n => simp only [lookupOrder, hmiss n rfl]
  | str t => simp only [lookupOrder]

/-- The store produced by `syncPendingOrders` in the non-degenerate path:
echo processing followed by the dirty-push phase. -/
theorem syncPendingOrders_store (api : SyncApi) (s : Store) (echo : List Order)
    (hpend : getUnsyncedOrders s ≠ [])
    (hsync : api.syncOrders (getUnsyncedOrders s) = Except.ok echo) :
    (syncPendingOrders true api s).1 = pushDirty api (processEcho s echo) := by
  rw [syncPendingOrders, if_pos rfl,
    if_neg (fun h => hpend (List.length_eq_zero.mp h)), hsync]

/-- A `pushDirtyStep` that does not reach a successful push leaves the store
unchanged; a successful push `put`s the cleaned record. -/
theorem pushDirtyStep_cases (api : SyncApi) (s : Store) (d : Order) :
    pushDirtyStep api s d = s ∨
      (∃ sid, resolveServerId api d = Except.ok (some sid) ∧
        api.updateOrderStatus sid d.status = Except.ok () ∧
        pushDirtyStep api s d = (storePut s { d with dirty := false }).1) := by
  rcases hr : resolveServerId api d with e | oid
  · left
    simp only [pushDirtyStep, hr]
  · rcases oid with _ | sid
    · left
      simp only [pushDirtyStep, hr]
    · rcases hu : api.updateOrderStatus sid d.status with e | u
      · left
        simp only [pushDirtyStep, hr, hu]
      · right
        refine ⟨sid, rfl, ?_, ?_⟩
        · cases u
          exact hu
        · simp only [pushDirtyStep, hr, hu]

/-- The dirty-push phase never touches keys outside its snapshot. -/
theorem pushDirtyList_get_preserved (api : SyncApi) (k : Nat) :
    ∀ (ds : List Order) (s : Store),
      (∀ d ∈ ds, d.id.isSome = true ∧ d.id ≠ some k) →
      storeGet (pushDirtyList api s ds) k = storeGet s k := by
  intro ds
  induction ds with
  | nil => intro s _; rfl
  | cons d ds ih =>
    intro s h
    obtain ⟨hsome, hne⟩ := h d (List.mem_cons_self d ds)
    have hstep : storeGet (pushDirtyStep api s d) k = storeGet s k := by
      rcases pushDirtyStep_cases api s d with heq | ⟨sid, _, _, heq⟩
      · rw [heq]
      · rw [heq]
        obtain ⟨j, hj⟩ := Option.isSome_iff_exists.mp hsome
        have hkj : k ≠ j := by
          intro hkj'
          exact hne (by rw [hj, hkj'])
        exact storeGet_put_ne s _ j k (by simp [hj]) hkj
    rw [pushDirtyList, ih _ (fun x hx => h x (List.mem_cons_of_mem d hx)), hstep]

/-- A dirty record with a resolvable server id and a succeeding push ends up
stored with `dirty = false` after the dirty-push phase. -/
theorem pushDirtyList_pushed (api : SyncApi) (d : Order) (k : Nat) (sid : String)
    (hid : d.id = some k)
    (hres : resolveServerId api d = Except.ok (some sid))
    (hupd : api.updateOrderStatus sid d.status = Except.ok ()) :
    ∀ (ds : List Order) (s : Store),
      ds.Pairwise (fun a b => a.id ≠ b.id) →
      (∀ x ∈ ds, x.id.isSome = true) →
      d ∈ ds →
      storeGet (pushDirtyList api s ds) k = some { d with dirty := false } := by
  intro ds
  induction ds with
  | nil => intro s _ _ hmem; cases hmem
  | cons x t ih =>
    intro s hpair hsome hmem
    rw [pushDirtyList]
    rcases List.mem_cons.mp hmem with heq | hmem'
    · subst heq
      have hstep : pushDirtyStep api s d = (storePut s { d with dirty := false }).1 := by
        simp only [pushDirtyStep, hres, hupd]
      rw [hstep]
      have hpres : ∀ y ∈ t, y.id.isSome = true ∧ y.id ≠ some k := by
        intro y hy
        refine ⟨hsome y (List.mem_cons_of_mem d hy), ?_⟩
        have hne := (List.pairwise_cons.mp hpair).1 y hy
        rw [hid] at hne
        intro hyk
        exact hne hyk.symm
      rw [pushDirtyList_get_preserved api k t _ hpres]
      exact storeGet_put_self _ _ k (by simp [hid])
    · exact ih _ (List.pairwise_cons.mp hpair).2
        (fun y hy => hsome y (List.mem_cons_of_mem x hy)) hmem'

/-- Any record whose `dirty` flag went from `true` to `false` across the
dirty-push phase was pushed successfully. -/
theorem pushDirtyList_dirty_cleared (api : SyncApi) (k : Nat) :
    ∀ (ds : List Order) (s : Store) (o : Order),
      ds.Pairwise (fun a b => a.id ≠ b.id) →
      (∀ x ∈ ds, x.id.isSome = true) →
      storeGet s k = some o → o.dirty = true →
      ∀ o', storeGet (pushDirtyList api s ds) k = some o' → o'.dirty = false →
        ∃ d, d ∈ ds ∧ d.id = some k ∧
          (∃ sid, resolveServerId api d = Except.ok (some sid) ∧
            api.updateOrderStatus sid d.status = Except.ok ()) ∧
          o' = { d with dirty := false } := by
  intro ds
  induction ds with
  | nil =>
    intro s o _ _ hget hdirty o' hget' hclean
    rw [pushDirtyList, hget] at hget'
    injection hget' with h
    subst h
    rw [hdirty] at hclean
    exact absurd hclean (by simp)
  | cons x t ih =>
    intro s o hpair hsome hget hdirty o' hget' hclean
    rw [pushDirtyList] at hget'
    obtain ⟨j, hj⟩ := Option.isSome_iff_exists.mp (hsome x (List.mem_cons_self x t))
    rcases pushDirtyStep_cases api s x with heq | ⟨sid, hres, hupd, heq⟩
    · rw [heq] at hget'
      obtain ⟨d, hd, rest⟩ := ih _ o (List.pairwise_cons.mp hpair).2
        (fun y hy => hsome y (List.mem_cons_of_mem x hy)) hget hdirty o' hget' hclean
      exact ⟨d, List.mem_cons_of_mem x hd, rest⟩
    · by_cases hjk : j = k
      · subst hjk
        have hpres : ∀ y ∈ t, y.id.isSome = true ∧ y.id ≠ some j := by
          intro y hy
          refine ⟨hsome y (List.mem_cons_of_mem x hy), ?_⟩
          have hne := (List.pairwise_cons.mp hpair).1 y hy
          rw [hj] at hne
          intro hyk
          exact hne hyk.symm
        rw [heq, pushDirtyList_get_preserved api j t _ hpres,
          storeGet_put_self _ _ j (by simp [hj])] at hget'
        injection hget' with h
        exact ⟨x, List.mem_cons_self x t, hj, ⟨sid, hres, hupd⟩, h.symm⟩
      · have hget2 : storeGet (pushDirtyStep api s x) k = some o := by
          rw [heq, storeGet_put_ne s _ j k (by simp [hj]) (fun h => hjk h.symm), hget]
        obtain ⟨d, hd, rest⟩ := ih _ o (List.pairwise_cons.mp hpair).2
          (fun y hy => hsome y (List.mem_cons_of_mem x hy)) hget2 hdirty o' hget' hclean
        exact ⟨d, List.mem_cons_of_mem x hd, rest⟩

/-- `addAll` splits into its record effect and its generator effect when
every record carries an explicit key. -/
theorem addAll_eq (os : List Order) (hids : ∀ o ∈ os, o.id.isSome = true) :
    ∀ (recs : List Order) (g : Nat),
      addAll ⟨recs, g⟩ os =
        (addAllRecs recs os).map (fun r => ⟨r, genAfter g os⟩) := by
  induction os with
  | nil => intro recs g; rfl
  | cons o os ih =>
    intro recs g
    obtain ⟨k, hk⟩ := Option.isSome_iff_exists.mp (hids o (List.mem_cons_self o os))
    have hgen : genAfter g (o :: os) = genAfter (max g (k + 1)) os := by
      rw [genAfter, List.foldl_cons, hk]
      rfl
    by_cases hc : recs.any (fun x => x.id == some k) = true
    · simp only [addAll, addAllRecs, storeAdd, hk, hc, if_true, Option.map_none']
    · simp only [addAll, addAllRecs, storeAdd, hk, hc, if_false, Bool.false_eq_true,
        ih (fun x hx => hids x (List.mem_cons_of_mem o hx)), hgen]

/-- The generator fold decomposes into a `max` with its zero-based value. -/
theorem genAfter_max (os : List Order) : ∀ g, genAfter g os = max g (genAfter 0 os) := by
  induction os with
  | nil => intro g; simp [genAfter]
  | cons o os ih =>
    intro g
    have h1 : genAfter g (o :: os) = genAfter (max g (o.id.getD 0 + 1)) os := rfl
    have h2 : genAfter 0 (o :: os) = genAfter (max 0 (o.id.getD 0 + 1)) os := rfl
    rw [h1, h2, ih, ih (max 0 (o.id.getD 0 + 1)), Nat.zero_max]
    omega

/-- The store after one pull of a fixed remote list, in closed form (for
remote lists whose records all carry explicit keys). -/
theorem pullStore_eq (remote : List Order) (hids : ∀ o ∈ remote, o.id.isSome = true)
    (s : Store) :
    (getAllOrders true (Except.ok remote) s).2 =
      (match addAllRecs [] remote with
       | none => s
       | some r => (⟨r, genAfter s.gen remote⟩ : Store)) := by
  have h1 : storeClear s = (⟨[], s.gen⟩ : Store) := rfl
  rw [getAllOrders, if_pos rfl, h1, addAll_eq remote hids [] s.gen]
  cases addAllRecs [] remote with
  | none => rfl
  | some r => rfl

/-- The delays accumulated by the backoff loop are exactly the per-attempt
actual delays of the consecutive attempts retried so far. -/
theorem ebAux_delays {E A : Type} (maxA : Nat) (base maxD mult : ℚ)
    (should : Option (E → Nat → Bool)) (fn : Nat → Except E A) (rand : Nat → ℚ) :
    ∀ (fuel attempt calls : Nat) (lastErr : Option E) (acc : List ℚ),
      ∃ m, (ebAux maxA base maxD mult should fn rand fuel attempt calls lastErr acc).2.2 =
        acc ++ (List.range m).map (fun i => ebActualDelay base maxD mult rand (attempt + i)) := by
  intro fuel
  induction fuel with
  | zero =>
    intro attempt calls lastErr acc
    exact ⟨0, by simp [ebAux]⟩
  | succ fuel ih =>
    intro attempt calls lastErr acc
    cases hf : fn attempt with
    | ok a => exact ⟨0, by simp [ebAux, hf]⟩
    | error e =>
      by_cases hstop : (attempt == maxA || !(ebRetryOk should e attempt)) = true
      · exact ⟨0, by simp [ebAux, hf, hstop]⟩
      · obtain ⟨m, hm⟩ := ih (attempt + 1) (calls + 1) (some e)
          (acc ++ [ebActualDelay base maxD mult rand attempt])
        refine ⟨m + 1, ?_⟩
        simp only [ebAux, hf, if_neg hstop]
        rw [hm, List.append_assoc]
        congr 1
        simp only [List.range_succ_eq_map, List.map_cons, List.map_map, Nat.add_zero,
          List.singleton_append]
        congr 1
        apply List.map_congr_left
        intro i _
        simp only [Function.comp_apply]
        congr 1
        omega

/-- When every attempt fails, the backoff loop stops at the first attempt `st`
that is the last allowed one or whose error the predicate rejects, re-raising
that attempt's error after exactly `st` invocations. -/
theorem ebAux_allfail {E A : Type} (maxA : Nat) (base maxD mult : ℚ)
    (should : Option (E → Nat → Bool)) (fn : Nat → Except E A) (rand : Nat → ℚ)
    (e : Nat → E) (st : Nat)
    (hfail : ∀ k, fn k = Except.error (e k))
    (hstop : st = maxA ∨ retryOkAt should e st = false)
    (hbelow : ∀ m, 1 ≤ m → m < st → retryOkAt should e m = true)
    (hsmax : st ≤ maxA) :
    ∀ (fuel attempt calls : Nat) (lastErr : Option E) (acc : List ℚ),
      fuel + attempt = maxA + 1 → 1 ≤ attempt → attempt ≤ st →
      (ebAux maxA base maxD mult should fn rand fuel attempt calls lastErr acc).1 =
          Except.error (some (e st)) ∧
        (ebAux maxA base maxD mult should fn rand fuel attempt calls lastErr acc).2.1 =
          calls + (st + 1 - attempt) := by
  intro fuel
  induction fuel with
  | zero =>
    intro attempt calls lastErr acc hfa h1 hast
    omega
  | succ fuel ih =>
    intro attempt calls lastErr acc hfa h1 hast
    by_cases hat : attempt = st
    · subst hat
      have hcond : (attempt == maxA || !(ebRetryOk should (e attempt) attempt)) = true := by
        rcases hstop with h | h
        · subst h
          simp
        · rw [Bool.or_eq_true, Bool.not_eq_true']
          right
          exact h
      constructor
      · simp only [ebAux, hfail attempt, if_pos hcond]
      · simp only [ebAux, hfail attempt, if_pos hcond]
        omega
    · have hlt : attempt < st := Nat.lt_of_le_of_ne hast hat
      have hcondf : (attempt == maxA || !(ebRetryOk should (e attempt) attempt)) = false := by
        rw [Bool.or_eq_false_iff]
        constructor
        · exact beq_eq_false_iff_ne.mpr (by omega)
        · rw [Bool.not_eq_false']
          exact hbelow attempt h1 hlt
      have hcond : ¬(attempt == maxA || !(ebRetryOk should (e attempt) attempt)) = true := by
        rw [hcondf]
        exact Bool.false_ne_true
      obtain ⟨hres, hcalls⟩ := ih (attempt + 1) (calls + 1) (some (e attempt))
        (acc ++ [ebActualDelay base maxD mult rand attempt]) (by omega) (by omega) (by omega)
      constructor
      · simp only [ebAux, hfail attempt, if_neg hcond]
        exact hres
      · simp only [ebAux, hfail attempt, if_neg hcond]
        rw [hcalls]
        omega

/-!  Claim theorems.  -/

/-- C1 counterexample: a server-resolution run of the admin resolver
`getServerUrl` in which every candidate health probe fails returns the
localhost URL with mode `'localhost'`, not `'disconnected'`, refuting the
claim as stated for that resolver. -/
theorem c1_counterexample :
    getServerUrl c1Urls (fun _ => false) true none false =
        (("http://localhost:3001", "localhost"), some AdminMode.localhost) ∧
      "localhost" ≠ "disconnected" := by
  constructor
  · rfl
  · decide

/-- C1 (amended): when every candidate health probe fails, the
NetworkContext resolver `detectServerUrl` falls back to the localhost URL
with mode `'disconnected'`, while the admin resolver `getServerUrl` (on any
cache miss) falls back to the localhost URL with mode `'localhost'` and
caches the localhost mode. -/
theorem c1_theorem :
    (∀ (b : Option String) (health : String → Bool), (∀ u, health u = false) →
        detectServerUrl b health = ("http://localhost:3001", "disconnected")) ∧
    (∀ (urls : ServerUrls) (health : String → Bool) (online : Bool)
        (cached : Option AdminMode) (fresh : Bool),
        (cached = none ∨ fresh = false) → (∀ u, health u = false) →
        getServerUrl urls health online cached fresh =
          ((urls.localhost, "localhost"), some AdminMode.localhost)) := by
  constructor
  · intro b health hall
    rw [detectServerUrl, List.find?_eq_none.mpr (fun x _ => by simp [hall x])]
  · intro urls health online cached fresh hcf hall
    have hmiss : getServerUrl urls health online cached fresh =
        (if health urls.localhost then
          ((urls.localhost, "localhost"), some AdminMode.localhost)
         else if urls.localNet ≠ urls.localhost ∧ health urls.localNet then
          ((urls.localNet, "local"), some AdminMode.localNet)
         else if online ∧ urls.cloud ≠ urls.localhost ∧ health urls.cloud then
          ((urls.cloud, "online"), some AdminMode.cloud)
         else ((urls.localhost, "localhost"), some AdminMode.localhost)) := by
      rcases hcf with h | h
      · subst h
        rfl
      · subst h
        cases cached <;> rfl
    rw [hmiss]
    simp [hall]

/-- C1 witness: the amended theorem evaluated on concrete all-failing probe
runs of both resolvers. -/
theorem c1_witness :
    detectServerUrl (some "http://example.com") (fun _ => false) =
        ("http://localhost:3001", "disconnected") ∧
      getServerUrl c1Urls (fun _ => false) false none true =
        ((c1Urls.localhost, "localhost"), some AdminMode.localhost) :=
  ⟨c1_theorem.1 (some "http://example.com") (fun _ => false) (fun _ => rfl),
   c1_theorem.2 c1Urls (fun _ => false) false none true (Or.inl rfl) (fun _ => rfl)⟩

/-- C6: when the pull path's server fetch fails, `getAllOrders` returns the
current store contents sorted by descending timestamp and leaves the store
unchanged; the returned list is indeed sorted w.r.t. descending timestamps
and is a permutation of the store contents. -/
theorem c6_theorem (s : Store) (e : String) :
    getAllOrders true (Except.error e) s = (sortTsDesc s.recs, s) ∧
      List.Sorted TsLE (sortTsDesc s.recs) ∧ (sortTsDesc s.recs).Perm s.recs :=
  ⟨rfl, List.sorted_insertionSort TsLE s.recs, List.perm_insertionSort TsLE s.recs⟩

/-- C7: calling the dashboard delete handler while the connectivity signal is
`false` leaves the store unchanged and reports the offline refusal. -/
theorem c7_theorem (confirmOk : Bool) (ordersState : List Order) (orderKey : Ident)
    (fetchByNumber : String → Except String (Option Order))
    (apiDelete : String → Except String Unit)
    (fetchResult : Except String (List Order)) (s : Store) :
    handleDeleteOrder false confirmOk ordersState orderKey fetchByNumber apiDelete
      fetchResult s = (s, DelOutcome.offlineRefused) := rfl

/-- C8: in every backoff run, the delay slept after failed attempt `n`
(for `1 ≤ n < maxAttempts`), i.e. before attempt `n + 1`, equals
`min(baseDelay * multiplier^(n-1), maxDelay)` plus a jitter amount that is at
least `0` and at most 10% of that delay. -/
theorem c8_theorem {E A : Type} (maxA : Nat) (base maxD mult : ℚ)
    (should : Option (E → Nat → Bool)) (fn : Nat → Except E A) (rand : Nat → ℚ)
    (n : Nat) (hn1 : 1 ≤ n) (hn2 : n < maxA) (hb : 0 ≤ base) (hmul : 0 ≤ mult)
    (hmd : 0 ≤ maxD) (hr0 : 0 ≤ rand n) (hr1 : rand n < 1)
    (hlen : n - 1 < (exponentialBackoff maxA base maxD mult should fn rand).2.2.length) :
    ∃ j, (exponentialBackoff maxA base maxD mult should fn rand).2.2.get ⟨n - 1, hlen⟩ =
        min (base * mult ^ (n - 1)) maxD + j ∧
      0 ≤ j ∧ j ≤ min (base * mult ^ (n - 1)) maxD / 10 := by
  obtain ⟨m, hm'⟩ := ebAux_delays maxA base maxD mult should fn rand maxA 1 0 none []
  have hrun : (exponentialBackoff maxA base maxD mult should fn rand).2.2 =
      (List.range m).map (fun i => ebActualDelay base maxD mult rand (1 + i)) := by
    rw [exponentialBackoff, hm', List.nil_append]
  have hget : (exponentialBackoff maxA base maxD mult should fn rand).2.2.get ⟨n - 1, hlen⟩ =
      ebActualDelay base maxD mult rand n := by
    rw [List.get_of_eq hrun]
    simp only [List.get_eq_getElem, List.getElem_map, List.getElem_range]
    congr 1
    omega
  have hd : 0 ≤ ebDelay base maxD mult n :=
    le_min (mul_nonneg hb (pow_nonneg hmul _)) hmd
  refine ⟨ebDelay base maxD mult n * rand n * (1 / 10), ?_, ?_, ?_⟩
  · rw [hget]
    rfl
  · exact mul_nonneg (mul_nonneg hd hr0) (by norm_num)
  · have hstep : ebDelay base maxD mult n * rand n * (1 / 10) ≤
        ebDelay base maxD mult n * 1 * (1 / 10) :=
      mul_le_mul_of_nonneg_right
        (mul_le_mul_of_nonneg_left (le_of_lt hr1) hd) (by norm_num)
    calc ebDelay base maxD mult n * rand n * (1 / 10) ≤
          ebDelay base maxD mult n * 1 * (1 / 10) := hstep
      _ = min (base * mult ^ (n - 1)) maxD / 10 := by
          rw [ebDelay]
          ring

/-- C8 witness: the theorem evaluated on a concrete always-failing run with
`maxAttempts = 5`, `baseDelay = 100`, `multiplier = 2` and zero jitter draw,
at `n = 2`. -/
theorem c8_witness :
    ∃ j, (exponentialBackoff 5 (100 : ℚ) 30000 2 none c8Fn (fun _ => 0)).2.2.get
        ⟨2 - 1, by decide⟩ =
        min ((100 : ℚ) * 2 ^ (2 - 1)) 30000 + j ∧
      0 ≤ j ∧ j ≤ min ((100 : ℚ) * 2 ^ (2 - 1)) 30000 / 10 :=
  c8_theorem 5 100 30000 2 none c8Fn (fun _ => 0) 2 (by decide) (by decide)
    (by norm_num) (by norm_num) (by norm_num) (by norm_num) (by norm_num) (by decide)

/-- C9: when the operation fails on every attempt, `exponentialBackoff`
re-raises exactly the error of the stopping attempt `st` — the first attempt
that either is the last allowed one (`st = maxAttempts`) or whose error the
retry predicate rejects — and the operation is invoked exactly `st` times,
so no invocation happens after that point. -/
theorem c9_theorem {E A : Type} (maxA : Nat) (base maxD mult : ℚ)
    (should : Option (E → Nat → Bool)) (fn : Nat → Except E A) (rand : Nat → ℚ)
    (e : Nat → E) (st : Nat)
    (hfail : ∀ k, fn k = Except.error (e k))
    (hs1 : 1 ≤ st) (hsmax : st ≤ maxA)
    (hstop : st = maxA ∨ retryOkAt should e st = false)
    (hbelow : ∀ m, 1 ≤ m → m < st → retryOkAt should e m = true) :
    (exponentialBackoff maxA base maxD mult should fn rand).1 =
        Except.error (some (e st)) ∧
      (exponentialBackoff maxA base maxD mult should fn rand).2.1 = st := by
  obtain ⟨h1, h2⟩ := ebAux_allfail maxA base maxD mult should fn rand e st hfail hstop
    hbelow hsmax maxA 1 0 none [] (by omega) (by omega) hs1
  constructor
  · rw [exponentialBackoff]
    exact h1
  · rw [exponentialBackoff, h2]
    omega

/-- C9 witness: a concrete run with `maxAttempts = 3` and a predicate that
rejects the second attempt's error: the run stops at attempt 2, re-raising
its error after exactly two invocations. -/
theorem c9_witness :
    (exponentialBackoff 3 (1000 : ℚ) 30000 2 c9Should c9Fn (fun _ => 0)).1 =
        Except.error (some (c9Err 2)) ∧
      (exponentialBackoff 3 (1000 : ℚ) 30000 2 c9Should c9Fn (fun _ => 0)).2.1 = 2 :=
  c9_theorem 3 1000 30000 2 c9Should c9Fn (fun _ => 0) c9Err 2 (fun _ => rfl)
    (by decide) (by decide) (Or.inr rfl)
    (by
      intro m h1 h2
      have hm : m = 1 := by omega
      subst hm
      rfl)

/-- C10: calling `simpleRetry` with a non-positive attempt count skips the
loop entirely, never invokes the operation and throws the initial `null`
last-error value. -/
theorem c10_theorem {E A : Type} (fn : Nat → Except E A) (a : Int) (ha : a ≤ 0) :
    simpleRetry fn a = (Except.error none, 0) := by
  rw [simpleRetry, Int.toNat_of_nonpos ha]
  rfl

/-- C10 witness: the theorem evaluated at `attempts = -1` with an operation
that would succeed if it were ever invoked. -/
theorem c10_witness :
    simpleRetry (fun _ => (Except.ok 0 : Except String Nat)) (-1) =
      (Except.error none, 0) :=
  c10_theorem (fun _ => Except.ok 0) (-1) (by decide)

/-- C2 counterexample: while online, with a dirty (but synced) record whose
server push would succeed, `syncPendingOrders` returns without touching the
record because no unsynced record exists for the bulk step — the dirty-push
phase is not independent of the bulk step. -/
theorem c2_counterexample :
    syncPendingOrders true c2Api c2Store = (c2Store, SyncResult.okSynced 0) ∧
      storeGet c2Store 1 = some c2Order ∧ c2Order.dirty = true ∧
      resolveServerId c2Api c2Order = Except.ok (some "s1") ∧
      c2Api.updateOrderStatus "s1" c2Order.status = Except.ok () :=
  ⟨rfl, rfl, rfl, rfl, rfl⟩

/-- C2 (amended): `syncPendingOrders` while online pushes the status update
of a dirty record and clears its `dirty` flag on success — resolving the
server identifier from the cached `_id` when present, else by order-number
lookup — but only when at least one unsynced record exists and the bulk sync
call succeeds (otherwise the dirty-push phase is skipped entirely). -/
theorem c2_theorem (s : Store) (api : SyncApi) (echo : List Order) (d : Order)
    (k : Nat) (sid : String)
    (hpend : getUnsyncedOrders s ≠ [])
    (hsync : api.syncOrders (getUnsyncedOrders s) = Except.ok echo)
    (hpair : (processEcho s echo).recs.Pairwise (fun a b => a.id ≠ b.id))
    (hsome : ∀ x ∈ (processEcho s echo).recs, x.id.isSome = true)
    (hmem : d ∈ (processEcho s echo).recs)
    (hdirty : d.dirty = true)
    (hid : d.id = some k)
    (hres : resolveServerId api d = Except.ok (some sid))
    (hupd : api.updateOrderStatus sid d.status = Except.ok ()) :
    storeGet (syncPendingOrders true api s).1 k = some { d with dirty := false } := by
  rw [syncPendingOrders_store api s echo hpend hsync, pushDirty]
  exact pushDirtyList_pushed api d k sid hid hres hupd _ _
    (List.Pairwise.filter _ hpair)
    (fun x hx => hsome x (List.mem_of_mem_filter hx))
    (List.mem_filter.mpr ⟨hmem, hdirty⟩)

/-- C2 witness: a store with one pending and one dirty record; after the run
the dirty record is stored with `dirty` cleared. -/
theorem c2_witness :
    storeGet (syncPendingOrders true c2Api c2wStore).1 2 =
      some { c2wDirty with dirty := false } :=
  c2_theorem c2wStore c2Api [] c2wDirty 2 "s2" (by decide) rfl (by decide)
    (by decide) (by decide) rfl rfl rfl rfl

/-- C3 counterexample: looking up `"K"` in a store whose earlier record
matches only by order number and whose later record matches by server
identifier returns the earlier (order-number) match, refuting the claimed
field-precedence (server identifier before order number). -/
theorem c3_counterexample :
    (markOrderAsSynced c3Store (some (Ident.str "K"))).2 =
        some { c3r1 with synced := true } ∧
      c3r1._id ≠ some "K" ∧ c3r2 ∈ c3Store.recs ∧ c3r2._id = some "K" := by
  refine ⟨rfl, by decide, by decide, rfl⟩

/-- C3 (amended): the status-update and delete lookups try the exact local
key (primary-key get) first and only then fall back to a scan, so a local-key
match beats every other match; but the fallback scan — and the whole
mark-as-synced lookup, which has no primary-key step — returns the first
record in store-key order matching any of the three identifier fields, so
among fallback candidates store position decides, not the field kind. -/
theorem c3_theorem :
    (∀ (s : Store) (k : Nat) (o : Order) (st : String), storeGet s k = some o →
        updateOrderStatus s (some (Ident.num k)) st =
          Except.ok ((storePut s { o with status := st, dirty := true }).1,
            { o with status := st, dirty := true })) ∧
    (∀ (s : Store) (k : Nat) (o : Order), storeGet s k = some o →
        deleteOrder s (some (Ident.num k)) =
          Except.ok (storeDelete s (o.id.getD 0), some o)) ∧
    (∀ (s : Store) (i : Ident) (st : String) (idx : Nat) (hidx : idx < s.recs.length),
        (∀ k, i = Ident.num k → storeGet s k = none) →
        lookupScanPred i (s.recs.get ⟨idx, hidx⟩) = true →
        (∀ j (hj : j < idx),
          lookupScanPred i (s.recs.get ⟨j, Nat.lt_trans hj hidx⟩) = false) →
        updateOrderStatus s (some i) st =
          Except.ok
            ((storePut s
              { s.recs.get ⟨idx, hidx⟩ with status := st, dirty := true }).1,
             { s.recs.get ⟨idx, hidx⟩ with status := st, dirty := true })) ∧
    (∀ (s : Store) (i : Ident) (idx : Nat) (hidx : idx < s.recs.length),
        (∀ k, i = Ident.num k → storeGet s k = none) →
        lookupScanPred i (s.recs.get ⟨idx, hidx⟩) = true →
        (∀ j (hj : j < idx),
          lookupScanPred i (s.recs.get ⟨j, Nat.lt_trans hj hidx⟩) = false) →
        deleteOrder s (some i) =
          Except.ok (storeDelete s ((s.recs.get ⟨idx, hidx⟩).id.getD 0),
            some (s.recs.get ⟨idx, hidx⟩))) ∧
    (∀ (s : Store) (oid : Option Ident) (i : Nat) (hi : i < s.recs.length),
        markScanPred oid (s.recs.get ⟨i, hi⟩) = true →
        (∀ j (hj : j < i), markScanPred oid (s.recs.get ⟨j, Nat.lt_trans hj hi⟩) = false) →
        (markOrderAsSynced s oid).2 = some { s.recs.get ⟨i, hi⟩ with synced := true }) := by
  refine ⟨?_, ?_, ?_, ?_, ?_⟩
  · intro s k o st h
    have hl : lookupOrder s (Ident.num k) = some o := by
      simp only [lookupOrder, h]
    simp only [updateOrderStatus, hl]
  · intro s k o h
    have hl : lookupOrder s (Ident.num k) = some o := by
      simp only [lookupOrder, h]
    simp only [deleteOrder, hl]
  · intro s i st idx hidx hmiss hp hb
    have hl : lookupOrder s i = some (s.recs.get ⟨idx, hidx⟩) := by
      rw [lookupOrder_miss s i hmiss,
        find_first_of_pred (lookupScanPred i) s.recs idx hidx hp hb]
    simp only [updateOrderStatus, hl]
  · intro s i idx hidx hmiss hp hb
    have hl : lookupOrder s i = some (s.recs.get ⟨idx, hidx⟩) := by
      rw [lookupOrder_miss s i hmiss,
        find_first_of_pred (lookupScanPred i) s.recs idx hidx hp hb]
    simp only [deleteOrder, hl]
  · intro s oid i hi hp hb
    rw [markOrderAsSynced, find_first_of_pred (markScanPred oid) s.recs i hi hp hb]

/-- C3 witness: the amended theorem evaluated on the two-record store — the
local-key paths hit their records directly, the update/delete fallback scans
return the first store-order match of a string identifier, and the
mark-as-synced scan returns the first record in store order. -/
theorem c3_witness :
    updateOrderStatus c3Store (some (Ident.num 1)) "done" =
        Except.ok ((storePut c3Store { c3r1 with status := "done", dirty := true }).1,
          { c3r1 with status := "done", dirty := true }) ∧
      deleteOrder c3Store (some (Ident.num 2)) =
        Except.ok (storeDelete c3Store (c3r2.id.getD 0), some c3r2) ∧
      updateOrderStatus c3Store (some (Ident.str "K")) "held" =
        Except.ok
          ((storePut c3Store
            { c3Store.recs.get ⟨0, by decide⟩ with status := "held", dirty := true }).1,
           { c3Store.recs.get ⟨0, by decide⟩ with status := "held", dirty := true }) ∧
      deleteOrder c3Store (some (Ident.str "N2")) =
        Except.ok (storeDelete c3Store ((c3Store.recs.get ⟨1, by decide⟩).id.getD 0),
          some (c3Store.recs.get ⟨1, by decide⟩)) ∧
      (markOrderAsSynced c3Store (some (Ident.str "K"))).2 =
        some { c3Store.recs.get ⟨0, by decide⟩ with synced := true } :=
  ⟨c3_theorem.1 c3Store 1 c3r1 "done" rfl,
   c3_theorem.2.1 c3Store 2 c3r2 rfl,
   c3_theorem.2.2.1 c3Store (Ident.str "K") "held" 0 (by decide)
     (fun k hk => nomatch hk) (by decide)
     (fun j hj => absurd hj (Nat.not_lt_zero j)),
   c3_theorem.2.2.2.1 c3Store (Ident.str "N2") 1 (by decide)
     (fun k hk => nomatch hk) (by decide)
     (by
       intro j hj
       have hj0 : j = 0 := by omega
       subst hj0
       show lookupScanPred (Ident.str "N2") (c3Store.recs.get ⟨0, by decide⟩) = false
       decide),
   c3_theorem.2.2.2.2 c3Store (some (Ident.str "K")) 0 (by decide) (by decide)
     (fun j hj => absurd hj (Nat.not_lt_zero j))⟩

/-- C4 counterexample: pulling a remote list whose record has no local key
twice gives a different record set after the second pull (the key generator
is not reset by `clear`, so the record receives a fresh key). -/
theorem c4_counterexample :
    (c4Pull (c4Pull ⟨[], 1⟩)).recs ≠ (c4Pull ⟨[], 1⟩).recs := by decide

/-- C4 (amended): pull-then-store is idempotent for every remote list whose
records all carry an explicit local key: pulling it twice leaves the store
(record set and generator) identical to the state after the first pull.
Records without a key are re-keyed by the generator on every pull. -/
theorem c4_theorem (s : Store) (remote : List Order)
    (hids : ∀ o ∈ remote, o.id.isSome = true) :
    (getAllOrders true (Except.ok remote) (getAllOrders true (Except.ok remote) s).2).2 =
      (getAllOrders true (Except.ok remote) s).2 := by
  have h1 := pullStore_eq remote hids s
  cases hr : addAllRecs [] remote with
  | none =>
    simp only [hr] at h1
    rw [h1, h1]
  | some r =>
    simp only [hr] at h1
    have h2 := pullStore_eq remote hids (⟨r, genAfter s.gen remote⟩ : Store)
    simp only [hr] at h2
    have h3 : genAfter (genAfter s.gen remote) remote = genAfter s.gen remote := by
      rw [genAfter_max remote (genAfter s.gen remote), genAfter_max remote s.gen]
      omega
    rw [h1, h2, h3]

/-- C4 witness: the amended idempotence evaluated on a one-record remote list
carrying the explicit key 7. -/
theorem c4_witness :
    (getAllOrders true (Except.ok c4wRemote)
        (getAllOrders true (Except.ok c4wRemote) ⟨[], 1⟩).2).2 =
      (getAllOrders true (Except.ok c4wRemote) ⟨[], 1⟩).2 :=
  c4_theorem ⟨[], 1⟩ c4wRemote (by decide)

/-- C5: the local status-update operation always stores the new status with
`dirty = true`; and in the pending-orders sync, a record that is dirty after
the echo phase ends up with `dirty = false` only if its status push to the
server succeeded (for the server identifier its resolution produced). -/
theorem c5_theorem :
    (∀ (s : Store) (oid : Option Ident) (st : String) (s' : Store) (o' : Order),
        updateOrderStatus s oid st = Except.ok (s', o') →
        o'.dirty = true ∧ o'.status = st) ∧
    (∀ (s : Store) (api : SyncApi) (echo : List Order) (k : Nat) (o o' : Order),
        getUnsyncedOrders s ≠ [] →
        api.syncOrders (getUnsyncedOrders s) = Except.ok echo →
        (processEcho s echo).recs.Pairwise (fun a b => a.id ≠ b.id) →
        (∀ x ∈ (processEcho s echo).recs, x.id.isSome = true) →
        storeGet (processEcho s echo) k = some o → o.dirty = true →
        storeGet (syncPendingOrders true api s).1 k = some o' → o'.dirty = false →
        ∃ d, d ∈ (processEcho s echo).recs.filter (fun x => x.dirty) ∧
          d.id = some k ∧
          (∃ sid, resolveServerId api d = Except.ok (some sid) ∧
            api.updateOrderStatus sid d.status = Except.ok ()) ∧
          o' = { d with dirty := false }) := by
  constructor
  · intro s oid st s' o' h
    cases oid with
    | none => exact absurd h (by simp [updateOrderStatus])
    | some i =>
      cases hl : lookupOrder s i with
      | none =>
        rw [updateOrderStatus, hl] at h
        exact absurd h (by simp)
      | some o =>
        rw [updateOrderStatus, hl] at h
        simp only [Except.ok.injEq, Prod.mk.injEq] at h
        obtain ⟨-, h2⟩ := h
        subst h2
        exact ⟨rfl, rfl⟩
  · intro s api echo k o o' hpend hsync hpair hsome hget hdirty hget' hclean
    rw [syncPendingOrders_store api s echo hpend hsync, pushDirty] at hget'
    exact pushDirtyList_dirty_cleared api k _ _ o
      (List.Pairwise.filter _ hpair)
      (fun x hx => hsome x (List.mem_of_mem_filter hx)) hget hdirty o' hget' hclean

/-- C5 witness: the two parts evaluated on a concrete store — a local status
update stores `dirty = true` with the new status, and the dirty record of the
sync scenario was cleared exactly because its push succeeded. -/
theorem c5_witness :
    (({ c5wDirty with status := "done", dirty := true } : Order).dirty = true ∧
      ({ c5wDirty with status := "done", dirty := true } : Order).status = "done") ∧
    ∃ d, d ∈ (processEcho c5wStore []).recs.filter (fun x => x.dirty) ∧
      d.id = some 2 ∧
      (∃ sid, resolveServerId c5Api d = Except.ok (some sid) ∧
        c5Api.updateOrderStatus sid d.status = Except.ok ()) ∧
      ({ c5wDirty with dirty := false } : Order) = { d with dirty := false } :=
  ⟨c5_theorem.1 c5wStore (some (Ident.num 2)) "done"
      (storePut c5wStore { c5wDirty with status := "done", dirty := true }).1
      { c5wDirty with status := "done", dirty := true } rfl,
   c5_theorem.2 c5wStore c5Api [] 2 c5wDirty { c5wDirty with dirty := false }
      (by decide) rfl (by decide) (by decide) rfl rfl rfl rfl⟩

end PosAdmin
